import Mathlib

/-!
Shallow embedding of the voteblock repository's core services
(`transactionManager.ts`: `TransactionManager` and `EnhancedBlockchainService`;
`blockchainMonitoringService.ts`: `BlockchainMonitoringService`;
`smartContractService.ts`: the built-in `election_rules` body).

Conventions of the embedding:
* The persistent key-value store (`StorageService`) becomes explicit state
  passing: mutating operations take the relevant collections (or the whole
  `Store`) and return the updated ones.  An operation that `throw`s in the
  source returns `Except.error` together with the store exactly as it stood
  at the throw point (mutations already persisted survive an exception,
  matching the source's storage semantics).
* JavaScript numbers become `Nat`/`Int`/`ℚ` as appropriate; `Date` values
  become `Int` epoch milliseconds, and each place the source calls
  `new Date()` takes the current time as an explicit `now : Int` argument.
* JavaScript string falsiness (`!x`) on the string fields becomes an equality
  test with `""`; optional fields become `Option`.
-/

namespace VoteBlock

/-- Modelled from the spec: `CryptoService.generateHash` is not under `src/`;
the spec describes it as an external collaborator producing deterministic,
collision-resistant digests (a "digest function (bytes→hex-like string,
deterministic, collision-resistant)").  It is modelled as an injective
deterministic tagging function, the ideal collision-resistant digest. -/
def generateHash (s : String) : String := "sha256(" ++ s ++ ")"

/-! ## Data model: transactions (`src/types`, used by `TransactionManager`) -/

inductive TxStatus
  | pending
  | confirmed
  | failed
deriving DecidableEq, Inhabited

def TxStatus.str : TxStatus → String
  | .pending => "pending"
  | .confirmed => "confirmed"
  | .failed => "failed"

/-- `BlockchainTransaction`.  The source's `from` is a Lean keyword, hence
`fromAddr`; the open string `type` tag is kept as a `String` exactly as in the
source.  `data` is the opaque payload, serialized; `""` models an absent
(falsy) payload. -/
structure Tx where
  id : String
  type : String
  fromAddr : String
  toAddr : Option String
  data : String
  timestamp : Int
  signature : String
  status : TxStatus
  gasLimit : Nat
  gasUsed : Nat
  blockIndex : Option Nat
deriving DecidableEq, Inhabited

def optStr : Option String → String
  | none => "undefined"
  | some s => s

def optNatStr : Option Nat → String
  | none => "undefined"
  | some n => toString n

/-- The canonical serialization `JSON.stringify` of the subset
`(id, type, from, to, data, timestamp)` used by `signTransaction`. -/
def txCanonicalString (tx : Tx) : String :=
  tx.id ++ "|" ++ tx.type ++ "|" ++ tx.fromAddr ++ "|" ++ optStr tx.toAddr
    ++ "|" ++ tx.data ++ "|" ++ toString tx.timestamp

/-- `TransactionManager.signTransaction`. -/
def signTransaction (tx : Tx) : String := generateHash (txCanonicalString tx)

/-- `JSON.stringify(tx)` over the whole record, used by `calculateMerkleRoot`. -/
def txFullString (tx : Tx) : String :=
  tx.id ++ "|" ++ tx.type ++ "|" ++ tx.fromAddr ++ "|" ++ optStr tx.toAddr
    ++ "|" ++ tx.data ++ "|" ++ toString tx.timestamp ++ "|" ++ tx.signature
    ++ "|" ++ tx.status.str ++ "|" ++ toString tx.gasLimit
    ++ "|" ++ toString tx.gasUsed ++ "|" ++ optNatStr tx.blockIndex

/-! ## TransactionManager -/

def MAX_POOL_SIZE : Nat := 1000

def BATCH_SIZE : Nat := 10

/-- The source's `{ valid: boolean; reason?: string }`. -/
structure ValidationResult where
  valid : Bool
  reason : Option String
deriving DecidableEq, Inhabited

def validTypes : List String :=
  ["vote", "election_create", "election_update", "voter_register", "smart_contract"]

/-- `TransactionManager.validateTransaction`. -/
def validateTransaction (tx : Tx) : ValidationResult :=
  if tx.id = "" ∨ tx.signature = "" then
    ⟨false, some "Missing transaction ID or signature"⟩
  else if tx.fromAddr = "" then
    ⟨false, some "Missing sender address"⟩
  else if tx.data = "" then
    ⟨false, some "Missing transaction data"⟩
  else if ¬ validTypes.contains tx.type then
    ⟨false, some "Invalid transaction type"⟩
  else
    ⟨true, none⟩

/-- `TransactionManager.submitTransaction`: re-validates, rejects when the
pool already holds `MAX_POOL_SIZE` entries, otherwise appends.  Errors model
the source's `throw`; the pool is unchanged on error (the caller keeps it). -/
def submitTransaction (pool : List Tx) (tx : Tx) : Except String (List Tx) :=
  let vr := validateTransaction tx
  if vr.valid = false then
    .error ("Transaction validation failed: " ++ optStr vr.reason)
  else if MAX_POOL_SIZE ≤ pool.length then
    .error "Transaction pool is full"
  else
    .ok (pool ++ [tx])

/-- In-place mutation of the first element `pool.find` returns (the source
mutates the found record inside the stored array). -/
def updateFirstBy {α : Type} (p : α → Bool) (f : α → α) : List α → List α
  | [] => []
  | x :: rest => if p x then f x :: rest else x :: updateFirstBy p f rest

/-- `TransactionManager.markTransactionConfirmed`: no-op when the id is
unknown; otherwise sets status/blockIndex/gasUsed on the found transaction. -/
def markTransactionConfirmed (pool : List Tx) (txid : String)
    (blockIdx gas : Nat) : List Tx :=
  updateFirstBy (fun tx => tx.id = txid)
    (fun tx => { tx with status := .confirmed, blockIndex := some blockIdx, gasUsed := gas })
    pool

/-- `TransactionManager.markTransactionFailed`. -/
def markTransactionFailed (pool : List Tx) (txid : String) : List Tx :=
  updateFirstBy (fun tx => tx.id = txid) (fun tx => { tx with status := .failed }) pool

/-- `TransactionManager.removePendingTransaction`. -/
def removePendingTransaction (pool : List Tx) (txid : String) : List Tx :=
  pool.filter (fun tx => ¬ tx.id = txid)

/-- `TransactionManager.clearConfirmedTransactions` with an explicit cutoff
(the default argument `Date.now() - 24h` is supplied by the caller). -/
def clearConfirmedTransactions (pool : List Tx) (cutoffTime : Int) : List Tx :=
  pool.filter (fun tx => if tx.status ≠ .confirmed then true else cutoffTime < tx.timestamp)

/-- Association-list model of the `Record<string, number>` built by
`forEach` in `getTransactionStats`. -/
def bumpCount (m : List (String × Nat)) (k : String) : List (String × Nat) :=
  if m.any (fun e => e.1 = k) then
    m.map (fun e => if e.1 = k then (e.1, e.2 + 1) else e)
  else
    m ++ [(k, 1)]

structure TransactionStats where
  totalTransactions : Nat
  pendingTransactions : Nat
  confirmedTransactions : Nat
  failedTransactions : Nat
  transactionsByType : List (String × Nat)
  averageGasUsed : ℚ
deriving DecidableEq, Inhabited

/-- `TransactionManager.getTransactionStats`.  Note the source's
`if (tx.status === 'confirmed' && tx.gasUsed)`: JavaScript truthiness makes a
confirmed transaction with `gasUsed === 0` count into neither `totalGasUsed`
nor `confirmedCount`. -/
def getTransactionStats (pool : List Tx) : TransactionStats :=
  let acc := pool.foldl
    (fun (acc : List (String × Nat) × Nat × Nat) tx =>
      let byType := bumpCount acc.1 tx.type
      if tx.status = .confirmed ∧ tx.gasUsed ≠ 0 then
        (byType, acc.2.1 + tx.gasUsed, acc.2.2 + 1)
      else
        (byType, acc.2.1, acc.2.2))
    ([], 0, 0)
  { totalTransactions := pool.length
    pendingTransactions := (pool.filter (fun tx => tx.status = .pending)).length
    confirmedTransactions := (pool.filter (fun tx => tx.status = .confirmed)).length
    failedTransactions := (pool.filter (fun tx => tx.status = .failed)).length
    transactionsByType := acc.1
    averageGasUsed := if 0 < acc.2.2 then (acc.2.1 : ℚ) / (acc.2.2 : ℚ) else 0 }

/-- `TransactionManager.verifyTransactionSignature`: recompute and compare. -/
def verifyTransactionSignature (tx : Tx) : Bool :=
  tx.signature = signTransaction tx

/-! ## Data model: blocks, nodes, consensus (`EnhancedBlockchainService`) -/

/-- `block.data`: the genesis payload object or the per-block
`(networkId, transactionCount)` summary built by `addBlock`. -/
inductive BlockData
  | genesis (timestamp : Int)
  | normal (networkId : String) (transactionCount : Nat)
deriving DecidableEq, Inhabited

/-- `JSON.stringify(block.data)`.  The genesis object's fixed string fields
are folded into the constant prefix. -/
def dataString : BlockData → String
  | .genesis ts =>
      "genesis|Nigeria E-Voting System - Enhanced Blockchain Genesis Block|"
        ++ toString ts ++ "|Independent National Electoral Commission (INEC)|"
        ++ "nigeria-evoting-mainnet|PoA Consensus,Smart Contracts,Real-time Verification"
  | .normal networkId txCount => networkId ++ "|" ++ toString txCount

structure Block where
  index : Nat
  timestamp : Int
  data : BlockData
  previousHash : String
  hash : String
  nonce : Nat
  validator : String
  signature : String
  transactions : List Tx
  merkleRoot : String
  gasUsed : Nat
  difficulty : Nat
deriving DecidableEq, Inhabited

inductive NodeType
  | validator
  | peer
  | light
deriving DecidableEq, Inhabited

inductive NodeStatus
  | active
  | inactive
deriving DecidableEq, Inhabited

structure Node where
  id : String
  address : String
  type : NodeType
  status : NodeStatus
  lastSeen : Int
  blocksValidated : Nat
  reputation : Nat
  stake : Nat
deriving DecidableEq, Inhabited

inductive Mechanism
  | PoA
  | PoW
deriving DecidableEq, Inhabited

structure ConsensusState where
  mechanism : Mechanism
  currentValidator : Option String
  validators : List String
  epoch : Nat
  blockTime : Nat
  difficulty : Nat
deriving DecidableEq, Inhabited

/-- The store: the four persisted collections the services read and write
(`nigeria_evoting_blockchain_v2`, `blockchain_nodes`, `consensus_state`,
`transaction_pool`). -/
structure Store where
  chain : List Block
  nodes : List Node
  consensus : ConsensusState
  pool : List Tx
deriving DecidableEq, Inhabited

def NETWORK_ID : String := "nigeria-evoting-mainnet"

/-- `EnhancedBlockchainService.calculateHash`: the digest of
`` `${index}${timestamp}${JSON.stringify(data)}${previousHash}${nonce}${merkleRoot}` ``.
Neither `hash` nor `signature` nor `gasUsed` enters the digest. -/
def blockString (b : Block) : String :=
  toString b.index ++ toString b.timestamp ++ dataString b.data
    ++ b.previousHash ++ toString b.nonce ++ b.merkleRoot

def calculateHash (b : Block) : String := generateHash (blockString b)

/-- One level of the Merkle fold: hash adjacent pairs, carry an odd last
element forward unchanged. -/
def merkleLevel : List String → List String
  | [] => []
  | [h] => [h]
  | a :: b :: rest => generateHash (a ++ b) :: merkleLevel rest

/-- The `while (hashes.length > 1)` loop of `calculateMerkleRoot`. -/
def merkleRootOfHashes : List String → String
  | [] => generateHash "empty"
  | [h] => h
  | a :: b :: rest =>
      merkleRootOfHashes (merkleLevel (a :: b :: rest))
termination_by hashes => hashes.length
decreasing_by
  have hlen : ∀ l : List String, (merkleLevel l).length = (l.length + 1) / 2 := by
    intro l
    induction l using merkleLevel.induct with
    | case1 => simp [merkleLevel]
    | case2 _ => simp [merkleLevel]
    | case3 x y rest ih => simp [merkleLevel, ih]; omega
  simp [hlen]; omega

/-- `EnhancedBlockchainService.calculateMerkleRoot`: empty input hashes the
sentinel string `"empty"`; otherwise pairwise hash-folding of the
transactions' serialized digests. -/
def calculateMerkleRoot (txs : List Tx) : String :=
  if txs = [] then generateHash "empty"
  else merkleRootOfHashes (txs.map (fun tx => generateHash (txFullString tx)))

/-- `EnhancedBlockchainService.signBlock`: digest over
`` `${index}${hash}${validator}` ``. -/
def signBlock (b : Block) : String :=
  generateHash (toString b.index ++ b.hash ++ b.validator)

/-- `EnhancedBlockchainService.validateBlock`: the four throw sites in source
order, as an `Except`.  The source's `if (newBlock.transactions)` guard is
always truthy (the field is always an array), so the Merkle check is
unconditional. -/
def validateBlock (newBlock previousBlock : Block) : Except String Unit :=
  if newBlock.index ≠ previousBlock.index + 1 then .error "Invalid block index"
  else if newBlock.previousHash ≠ previousBlock.hash then .error "Invalid previous hash"
  else if newBlock.hash ≠ calculateHash newBlock then .error "Invalid block hash"
  else if newBlock.merkleRoot ≠ calculateMerkleRoot newBlock.transactions then
    .error "Invalid merkle root"
  else .ok ()

/-- The loop body of `validateBlockchain` from position `i`, carrying the
previous block: `for (i = 1; i < chain.length; i++) validateBlock(chain[i],
chain[i-1])`, returning `false` at the first failure. -/
def validChainFrom (prev : Block) : List Block → Bool
  | [] => true
  | b :: rest => (validateBlock b prev matches .ok _) && validChainFrom b rest

/-- `EnhancedBlockchainService.validateBlockchain`. -/
def validateBlockchain : List Block → Bool
  | [] => true
  | b :: rest => validChainFrom b rest

/-! ## Ledger operations -/

/-- `EnhancedBlockchainService.getActiveValidators` (on a node table). -/
def activeValidators (nodes : List Node) : List Node :=
  nodes.filter (fun n => n.type = .validator ∧ n.status = .active)

def activeValidatorIds (nodes : List Node) : List String :=
  (activeValidators nodes).map (fun n => n.id)

/-- `EnhancedBlockchainService.updateValidatorStats`: bump the found node's
counters; no-op when the validator id is unknown. -/
def updateValidatorStats (nodes : List Node) (validatorId : String) (now : Int) :
    List Node :=
  updateFirstBy (fun n => n.id = validatorId)
    (fun n => { n with blocksValidated := n.blocksValidated + 1, lastSeen := now,
                       reputation := min 100 (n.reputation + 1) })
    nodes

/-- `EnhancedBlockchainService.rotateValidator`: look up the current
authority's position in the current active-validator list (`findIndex`, `-1`
when absent), advance round-robin, bump the epoch.  No-op when no validator
is active. -/
def rotateValidatorC (nodes : List Node) (c : ConsensusState) : ConsensusState :=
  let validators := activeValidators nodes
  if validators.length = 0 then c
  else
    let currentIndex : Int :=
      match validators.findIdx? (fun v => some v.id = c.currentValidator) with
      | some i => (i : Int)
      | none => -1
    let nextIndex : Nat := ((currentIndex + 1) % (validators.length : Int)).toNat
    { c with currentValidator := some ((validators.getD nextIndex default).id)
             epoch := c.epoch + 1 }

def rotateValidator (st : Store) : Store :=
  { st with consensus := rotateValidatorC st.nodes st.consensus }

/-- The PoW nonce search (`mineBlockPoW`): the source draws random nonces in
an unbounded loop; the model tries an explicit finite stream and reports
`none` when it is exhausted (the source would still be looping — either way
no successful `addBlock` call results and nothing is stored). -/
def mineBlockPoW (nonces : List Nat) (b : Block) (difficulty : Nat) :
    Option (Nat × String) :=
  match nonces with
  | [] => none
  | n :: rest =>
      let h := calculateHash { b with nonce := n }
      if h.take difficulty = String.mk (List.replicate difficulty '0') then some (n, h)
      else mineBlockPoW rest b difficulty

/-- The candidate block `addBlock` builds and signs before validation, given
the chain tip: fields exactly as the source's object literal, then `gasUsed`
summed, then the hash (PoW search or direct), then the signature.  `none`
when the PoW nonce stream is exhausted (models the loop not returning). -/
def candidateBlock (consensus : ConsensusState) (previousBlock : Block)
    (txs : List Tx) (now : Int) (nonces : List Nat) : Option Block :=
  let base : Block :=
    { index := previousBlock.index + 1
      timestamp := now
      data := .normal NETWORK_ID txs.length
      previousHash := previousBlock.hash
      hash := ""
      nonce := 0
      validator := consensus.currentValidator.getD "system"
      signature := ""
      transactions := txs
      merkleRoot := calculateMerkleRoot txs
      gasUsed := (txs.map (fun tx => tx.gasUsed)).sum
      difficulty := consensus.difficulty }
  let hashed : Option Block :=
    match consensus.mechanism with
    | .PoW => (mineBlockPoW nonces base consensus.difficulty).map
        (fun p => { base with nonce := p.1, hash := p.2 })
    | .PoA => some { base with hash := calculateHash base }
  hashed.map (fun b => { b with signature := signBlock b })

/-- `EnhancedBlockchainService.addBlock`.  The result pairs the source's
return-or-throw with the store as it stands when control leaves the method;
every `throw` happens before any `setItem`, so the store is returned
untouched on error.  On success: append, update the producing validator's
stats, rotate the authority, and mark every included transaction confirmed. -/
def addBlock (st : Store) (txs : List Tx) (now : Int) (nonces : List Nat) :
    Except String Block × Store :=
  match st.chain.getLast? with
  | none => (.error "TypeError: cannot read previous block of an empty chain", st)
  | some previousBlock =>
      match candidateBlock st.consensus previousBlock txs now nonces with
      | none => (.error "PoW nonce search did not return", st)
      | some newBlock =>
          match validateBlock newBlock previousBlock with
          | .error e => (.error e, st)
          | .ok _ =>
              let st1 := { st with chain := st.chain ++ [newBlock] }
              let st2 := { st1 with nodes := updateValidatorStats st1.nodes newBlock.validator now }
              let st3 := rotateValidator st2
              let pool4 := txs.foldl
                (fun p tx => markTransactionConfirmed p tx.id newBlock.index tx.gasUsed) st3.pool
              (.ok newBlock, { st3 with pool := pool4 })

/-! ## Initialization (`initializeBlockchain`) -/

/-- `EnhancedBlockchainService.createGenesisBlock` (timestamps passed in for
the two `new Date()` calls, taken equal). -/
def createGenesisBlock (now : Int) : Block :=
  let base : Block :=
    { index := 0, timestamp := now, data := .genesis now, previousHash := "0",
      hash := "", nonce := 0, validator := "system", signature := "",
      transactions := [], merkleRoot := calculateMerkleRoot [], gasUsed := 0,
      difficulty := 0 }
  let hashed := { base with hash := calculateHash base }
  { hashed with signature := signBlock hashed }

/-- `EnhancedBlockchainService.createNode` (the `crypto.randomUUID()` id is
passed in). -/
def createNode (id : String) (type : NodeType) (address : String) (now : Int) : Node :=
  { id := id, address := address, type := type, status := .active, lastSeen := now,
    blocksValidated := 0, reputation := 100,
    stake := if type = .validator then 1000000 else 0 }

/-- The fixed initial node table of `initializeNetwork`: three validators,
three peers. -/
def initialNodes (now : Int) (v1 v2 v3 p1 p2 p3 : String) : List Node :=
  [ createNode v1 .validator "INEC-Primary-Validator" now,
    createNode v2 .validator "INEC-Secondary-Validator" now,
    createNode v3 .validator "INEC-Tertiary-Validator" now,
    createNode p1 .peer "Regional-Node-Lagos" now,
    createNode p2 .peer "Regional-Node-Abuja" now,
    createNode p3 .peer "Regional-Node-Kano" now ]

/-- The store `initializeBlockchain` leaves behind on first run: the genesis
chain, the seeded node table, and the default consensus state
(`initializeConsensus`: PoA, first active validator as current authority,
epoch 0, 3000 ms block time, difficulty 3). -/
def initialStore (now : Int) (v1 v2 v3 p1 p2 p3 : String) : Store :=
  let nodes := initialNodes now v1 v2 v3 p1 p2 p3
  let validators := activeValidators nodes
  { chain := [createGenesisBlock now]
    nodes := nodes
    consensus :=
      { mechanism := .PoA
        currentValidator := validators.head?.map (fun v => v.id)
        validators := validators.map (fun v => v.id)
        epoch := 0
        blockTime := 3000
        difficulty := 3 }
    pool := [] }

/-- The states reachable from a freshly initialized store by sequences of
successful `addBlock` calls. -/
inductive Reachable : Store → Prop
  | init (now : Int) (v1 v2 v3 p1 p2 p3 : String) :
      Reachable (initialStore now v1 v2 v3 p1 p2 p3)
  | step {st : Store} (txs : List Tx) (now : Int) (nonces : List Nat) :
      Reachable st →
      (∃ b, (addBlock st txs now nonces).1 = .ok b) →
      Reachable (addBlock st txs now nonces).2

/-! ## Network status (`getNetworkStatus`) -/

inductive NetHealth
  | healthy
  | degraded
  | critical
deriving DecidableEq, Inhabited

structure NetworkStatus where
  totalNodes : Nat
  activeNodes : Nat
  validators : Nat
  networkHealth : NetHealth
deriving DecidableEq, Inhabited

/-- `EnhancedBlockchainService.getNetworkStatus`: critical below 2 active
validators, degraded below half the nodes active. -/
def getNetworkStatus (nodes : List Node) : NetworkStatus :=
  let activeNodes := nodes.filter (fun n => n.status = .active)
  let validators := nodes.filter (fun n => n.type = .validator ∧ n.status = .active)
  let networkHealth : NetHealth :=
    if validators.length < 2 then .critical
    else if (activeNodes.length : ℚ) < (nodes.length : ℚ) * (1 / 2) then .degraded
    else .healthy
  { totalNodes := nodes.length, activeNodes := activeNodes.length,
    validators := validators.length, networkHealth := networkHealth }

/-! ## BlockchainMonitoringService -/

def blockTimeWarning : Nat := 10000
def blockTimeCritical : Nat := 30000
def pendingTransactionsWarning : Nat := 100
def pendingTransactionsCritical : Nat := 500

/-- `BlockchainMonitoringService.calculateBlockTimes`:
`for (i = 1; i < Math.min(chain.length, 100); i++)` pushes
`chain[i].timestamp - chain[i-1].timestamp`, i.e. the inter-block gaps of the
first `min(length, 100)` blocks of the chain — `zipWith` the window against
itself shifted by one. -/
def calculateBlockTimes (chain : List Block) : List Int :=
  let window := chain.take 100
  List.zipWith (fun cur prev => cur.timestamp - prev.timestamp) (window.drop 1) window

/-- The `averageBlockTime` computation of `getRealtimeMetrics`. -/
def averageBlockTime (chain : List Block) : ℚ :=
  let times := calculateBlockTimes chain
  if 0 < times.length then
    ((times.map (fun t : Int => (t : ℚ))).sum) / (times.length : ℚ)
  else 0

/-- `BlockchainMonitoringService.calculateTPS`: included transactions over
elapsed seconds across the last 10 blocks. -/
def calculateTPS (chain : List Block) : ℚ :=
  let recentBlocks := chain.drop (chain.length - 10)
  if recentBlocks.length < 2 then 0
  else
    let totalTransactions := (recentBlocks.map (fun b => b.transactions.length)).sum
    let firstBlock := recentBlocks.headD default
    let lastBlock := recentBlocks.getLastD default
    let timeSpan : ℚ := ((lastBlock.timestamp - firstBlock.timestamp : Int) : ℚ) / 1000
    if 0 < timeSpan then (totalTransactions : ℚ) / timeSpan else 0

/-- `BlockchainMonitoringService.calculateNetworkHashRate`:
`2^(difficulty*4)` hashes per block over the last 100 blocks' time span. -/
def calculateNetworkHashRate (chain : List Block) (difficulty : Nat) : ℚ :=
  let recentBlocks := chain.drop (chain.length - 100)
  if recentBlocks.length < 2 then 0
  else
    let hashesPerBlock : ℚ := 2 ^ (difficulty * 4)
    let totalHashes : ℚ := (recentBlocks.length : ℚ) * hashesPerBlock
    let firstBlock := recentBlocks.headD default
    let lastBlock := recentBlocks.getLastD default
    let timeSpan : ℚ := ((lastBlock.timestamp - firstBlock.timestamp : Int) : ℚ) / 1000
    if 0 < timeSpan then totalHashes / timeSpan else 0

structure Metrics where
  totalBlocks : Nat
  totalTransactions : Nat
  averageBlockTime : ℚ
  transactionsPerSecond : ℚ
  networkHashRate : ℚ
  activeNodes : Nat
  consensusHealth : NetHealth
  chainValidity : Bool
  lastBlockTime : Int
  pendingTransactions : Nat
deriving DecidableEq, Inhabited

/-- `BlockchainMonitoringService.getRealtimeMetrics` (`now` stands for the
`new Date()` fallback used when the chain is empty). -/
def getRealtimeMetrics (st : Store) (now : Int) : Metrics :=
  let chain := st.chain
  let transactionStats := getTransactionStats st.pool
  let networkStatus := getNetworkStatus st.nodes
  let consensus := st.consensus
  let avgBlockTime := averageBlockTime chain
  let tps := calculateTPS chain
  let hashRate := calculateNetworkHashRate chain consensus.difficulty
  let chainValid := validateBlockchain chain
  let consensusHealth : NetHealth :=
    if networkStatus.networkHealth = .critical ∨ chainValid = false then .critical
    else if networkStatus.networkHealth = .degraded ∨ (blockTimeWarning : ℚ) < avgBlockTime then
      .degraded
    else .healthy
  { totalBlocks := chain.length
    totalTransactions := transactionStats.totalTransactions
    averageBlockTime := avgBlockTime
    transactionsPerSecond := tps
    networkHashRate := hashRate
    activeNodes := networkStatus.activeNodes
    consensusHealth := consensusHealth
    chainValidity := chainValid
    lastBlockTime := (chain.getLast?.map (fun b => b.timestamp)).getD now
    pendingTransactions := transactionStats.pendingTransactions }

inductive OverallHealth
  | healthy
  | warning
  | critical
deriving DecidableEq, Inhabited

structure HealthReport where
  overall : OverallHealth
  issues : List String
  recommendations : List String
deriving DecidableEq, Inhabited

/-- `BlockchainMonitoringService.getBlockchainHealth`: the source's sequence
of checks, each appending to `issues`/`recommendations` and updating
`overall` exactly as its guards say.  Note: the pending-transactions check
compares only against `pendingTransactionsCritical` (500) and raises
`overall` no higher than `'warning'`; the 100-entry
`pendingTransactionsWarning` threshold is never consulted. -/
def healthFromMetrics (metrics : Metrics) : HealthReport :=
  let issues0 : List String := []
  let recs0 : List String := []
  let overall0 : OverallHealth := .healthy
  let s1 :=
    if metrics.chainValidity = false then
      (issues0 ++ ["Blockchain integrity compromised"],
       recs0 ++ ["Investigate and resolve chain validation errors immediately"],
       OverallHealth.critical)
    else (issues0, recs0, overall0)
  let s2 :=
    if metrics.consensusHealth = .critical then
      (s1.1 ++ ["Consensus mechanism in critical state"],
       s1.2.1 ++ ["Check validator nodes and ensure minimum required validators are active"],
       OverallHealth.critical)
    else s1
  let s3 :=
    if pendingTransactionsCritical < metrics.pendingTransactions then
      (s2.1 ++ ["High pending transaction count: " ++ toString metrics.pendingTransactions],
       s2.2.1 ++ ["Increase block production rate or batch size"],
       if s2.2.2 ≠ .critical then OverallHealth.warning else s2.2.2)
    else s2
  let s4 :=
    if (blockTimeCritical : ℚ) < metrics.averageBlockTime then
      (s3.1 ++ ["Block time critically high"],
       s3.2.1 ++ ["Check network connectivity and validator performance"],
       OverallHealth.critical)
    else if (blockTimeWarning : ℚ) < metrics.averageBlockTime then
      (s3.1 ++ ["Block time elevated"],
       s3.2.1 ++ ["Monitor validator performance"],
       if s3.2.2 = .healthy then OverallHealth.warning else s3.2.2)
    else s3
  let s5 :=
    if metrics.activeNodes < 3 then
      (s4.1 ++ ["Low node count"],
       s4.2.1 ++ ["Ensure minimum required nodes are online"],
       if s4.2.2 = .healthy then OverallHealth.warning else s4.2.2)
    else s4
  if s5.1 = [] then
    { overall := .healthy, issues := [], recommendations := ["System operating normally"] }
  else
    { overall := s5.2.2, issues := s5.1, recommendations := s5.2.1 }

def getBlockchainHealth (st : Store) (now : Int) : HealthReport :=
  healthFromMetrics (getRealtimeMetrics st now)

/-! ## SmartContractService: the built-in `election_rules` body -/

/-- The argument shape the `election_rules` body reads: a candidate list
(possibly absent — `!election.candidates`) and start/end dates in epoch
milliseconds. -/
structure Election where
  candidates : Option (List String)
  startDate : Int
  endDate : Int
deriving DecidableEq, Inhabited

/-- The election's duration in days as the source computes it:
`(endDate - startDate) / (1000 * 60 * 60 * 24)` (real division). -/
def electionDurationDays (e : Election) : ℚ :=
  ((e.endDate - e.startDate : Int) : ℚ) / (1000 * 60 * 60 * 24)

/-- The `validateElectionRules` body seeded by `deployDefaultContracts`:
fewer than `minCandidates = 2` candidates (or an absent list) is invalid;
then a duration above `maxDurationDays = 365` **or below 1 day** is
invalid. -/
def validateElectionRules (e : Election) : ValidationResult :=
  match e.candidates with
  | none => ⟨false, some "Insufficient candidates"⟩
  | some cs =>
      if cs.length < 2 then ⟨false, some "Insufficient candidates"⟩
      else
        let duration := electionDurationDays e
        if 365 < duration ∨ duration < 1 then ⟨false, some "Invalid election duration"⟩
        else ⟨true, none⟩

/-! ## Spec-side restatements (each follows the words of a claim, to be
compared against the definitions translated from the source) -/

/-- The claim's reading of `validateBlockchain`: every adjacent pair of the
chain passes the linkage/hash/Merkle re-derivation. -/
def chainPairsOk (c : List Block) : Prop :=
  ∀ i, i + 1 < c.length →
    validateBlock (c.getD (i + 1) default) (c.getD i default) = .ok ()

/-- The claim's stated mean for C9: sum of `gasUsed` over all confirmed
transactions divided by the number of confirmed transactions (0 when none is
confirmed) — zero-gas confirmed transactions count into the denominator. -/
def averageGasUsedOverConfirmed (pool : List Tx) : ℚ :=
  let confirmed := pool.filter (fun tx => tx.status = .confirmed)
  if confirmed.length = 0 then 0
  else ((confirmed.map (fun tx => (tx.gasUsed : ℚ))).sum) / (confirmed.length : ℚ)

/-- The mean the source actually computes for C9 (amended claim): only
confirmed transactions with nonzero `gasUsed` enter numerator and
denominator. -/
def averageGasUsedOverNonzeroConfirmed (pool : List Tx) : ℚ :=
  let counted := pool.filter (fun tx => tx.status = .confirmed ∧ tx.gasUsed ≠ 0)
  if counted.length = 0 then 0
  else ((counted.map (fun tx => (tx.gasUsed : ℚ))).sum) / (counted.length : ℚ)

/-- The claim's stated mean for C6: inter-block gaps over the **last** 100
blocks of the chain (0 with fewer than 2 blocks). -/
def averageBlockTimeOverLast100 (chain : List Block) : ℚ :=
  let window := chain.drop (chain.length - 100)
  let gaps : List Int := List.zipWith (fun cur prev => cur.timestamp - prev.timestamp)
    (window.drop 1) window
  if gaps.length = 0 then 0
  else ((gaps.map (fun t : Int => (t : ℚ))).sum) / (gaps.length : ℚ)

/-- The amended mean for C6: with `w` the **first** `min(length, 100)` blocks
of the chain, the average of the gaps `w[i+1].timestamp - w[i].timestamp`
over `i < w.length - 1` (0 when that window has fewer than 2 blocks). -/
def averageBlockTimeOverFirst100 (chain : List Block) : ℚ :=
  let w := chain.take 100
  if w.length < 2 then 0
  else
    (((List.range (w.length - 1)).map
        (fun i => (((w.getD (i + 1) default).timestamp - (w.getD i default).timestamp : Int) : ℚ))).sum)
      / ((w.length - 1 : Nat) : ℚ)

/-! ## Scenario helpers and concrete inputs for the claims -/

/-- Submitting a sequence of transactions one after another, stopping at the
first rejection. -/
def submitAll (pool : List Tx) : List Tx → Except String (List Tx)
  | [] => .ok pool
  | tx :: rest =>
      match submitTransaction pool tx with
      | .error e => .error e
      | .ok p => submitAll p rest

/-- `N` consecutive `addBlock` calls (the `k`-th with transactions
`txsf k` at time `nowf k` with nonce stream `noncesf k`), keeping whatever
store each call leaves behind. -/
def iterAddBlock (st : Store) (txsf : Nat → List Tx) (nowf : Nat → Int)
    (noncesf : Nat → List Nat) : Nat → Store
  | 0 => st
  | n + 1 =>
      (addBlock (iterAddBlock st txsf nowf noncesf n) (txsf n) (nowf n) (noncesf n)).2

/-- A pending vote transaction that passes `validateTransaction`. -/
def pendingVoteTx : Tx :=
  { id := "tx-pending", type := "vote", fromAddr := "voter-1", toAddr := none,
    data := "ballot", timestamp := 0, signature := "sig", status := .pending,
    gasLimit := 100, gasUsed := 0, blockIndex := none }

/-- A confirmed transaction, for the C4 counterexample. -/
def confirmedVoteTx : Tx :=
  { id := "tx-confirmed", type := "vote", fromAddr := "voter-2", toAddr := none,
    data := "ballot", timestamp := 0, signature := "sig", status := .confirmed,
    gasLimit := 100, gasUsed := 7, blockIndex := some 1 }

/-- A confirmed transaction with `gasUsed = 0` and one with `gasUsed = 10`:
the C9 counterexample pool. -/
def zeroGasPool : List Tx :=
  [ { id := "tx-zero", type := "vote", fromAddr := "voter-3", toAddr := none,
      data := "ballot", timestamp := 0, signature := "sig", status := .confirmed,
      gasLimit := 100, gasUsed := 0, blockIndex := some 1 },
    { id := "tx-ten", type := "vote", fromAddr := "voter-4", toAddr := none,
      data := "ballot", timestamp := 0, signature := "sig", status := .confirmed,
      gasLimit := 100, gasUsed := 10, blockIndex := some 1 } ]

/-- A transaction signed over its canonical fields and then tampered with:
the payload is altered after signing, so the stored signature no longer
matches the recomputed digest (C10). -/
def tamperedTx : Tx :=
  let base : Tx :=
    { id := "tx-tampered", type := "vote", fromAddr := "voter-9",
      toAddr := some "election-1", data := "candidate-A", timestamp := 7,
      signature := "", status := .pending, gasLimit := 100, gasUsed := 0,
      blockIndex := none }
  let signed := { base with signature := signTransaction base }
  { signed with data := "candidate-B" }

/-- A 2-candidate election lasting exactly one day (86 400 000 ms). -/
def oneDayElection : Election := ⟨some ["A", "B"], 0, 86400000⟩

/-- A 2-candidate election lasting half a day: its duration lies in (0, 365]
days, yet the deployed rule body rejects it (`duration < 1`). -/
def halfDayElection : Election := ⟨some ["A", "B"], 0, 43200000⟩

/-- A block carrying only a timestamp (all other fields defaulted), for the
C6 block-time counterexample chain. -/
def timedBlock (t : Int) : Block := { (default : Block) with timestamp := t }

/-- 101 blocks: 100 at time 0, then one at time 100.  The first 100 blocks
have zero gaps; the last 100 blocks have mean gap 100/99. -/
def chain101 : List Block := List.replicate 100 (timedBlock 0) ++ [timedBlock 100]

def chain101Store : Store :=
  { chain := chain101, nodes := [], consensus := default, pool := [] }

/-- A healthy store (valid single-block chain, 6 active nodes of which 3 are
validators) whose pool holds `n` pending transactions: the C7 inputs. -/
def pendingBacklogStore (n : Nat) : Store :=
  { chain := [createGenesisBlock 0]
    nodes := initialNodes 0 "v1" "v2" "v3" "p1" "p2" "p3"
    consensus :=
      { mechanism := .PoA, currentValidator := some "v1",
        validators := ["v1", "v2", "v3"], epoch := 0, blockTime := 3000,
        difficulty := 3 }
    pool := List.replicate n pendingVoteTx }

/-! # Theorems -/

/-! ## Helper lemmas about `updateFirstBy` -/

theorem updateFirstBy_length {α : Type} (p : α → Bool) (f : α → α) (l : List α) :
    (updateFirstBy p f l).length = l.length := by
  induction l with
  | nil => rfl
  | cons a t ih =>
      by_cases h : p a <;> simp [updateFirstBy, h, ih]

theorem updateFirstBy_of_none {α : Type} (p : α → Bool) (f : α → α) (l : List α)
    (h : ∀ x ∈ l, p x = false) : updateFirstBy p f l = l := by
  induction l with
  | nil => rfl
  | cons a t ih =>
      have ha := h a (List.mem_cons_self a t)
      simp [updateFirstBy, ha, ih fun x hx => h x (List.mem_cons_of_mem a hx)]

theorem updateFirstBy_eq_set {α : Type} (p : α → Bool) (f : α → α) :
    ∀ (l : List α) (j : Nat) (x : α), l.findIdx? p = some j → l[j]? = some x →
      updateFirstBy p f l = l.set j (f x) := by
  intro l
  induction l with
  | nil => intro j x h _; simp [List.findIdx?] at h
  | cons a t ih =>
      intro j x h hx
      rw [List.findIdx?_cons] at h
      by_cases hp : p a
      · simp [hp] at h
        subst h
        simp at hx
        subst hx
        simp [updateFirstBy, hp]
      · simp [hp, List.findIdx?_succ] at h
        obtain ⟨j', hj', rfl⟩ := h
        simp at hx
        simp [updateFirstBy, hp, ih j' x hj' hx]

/-! ## C4: status transitions of `markTransactionConfirmed` / `markTransactionFailed` -/

/-- C4 counterexample: the claim says a confirmed transaction is never moved
to failed, but `markTransactionFailed` on a pool holding one confirmed
transaction flips its status to failed. -/
theorem markTransactionFailed_flips_confirmed :
    confirmedVoteTx.status = .confirmed ∧
      (markTransactionFailed [confirmedVoteTx] "tx-confirmed").map (fun tx => tx.status)
        = [TxStatus.failed] := by
  constructor
  · rfl
  · rfl

/-- C4 (amended): the two marking operations update the status of the first
transaction carrying the given id unconditionally — `markTransactionConfirmed`
always leaves it confirmed and `markTransactionFailed` always leaves it
failed, whatever status it had before (so pending→confirmed and
pending→failed hold, but confirmed→failed and failed→confirmed are also
possible); an unknown id is a no-op and no other entry of the pool is
touched. -/
theorem markTransaction_sets_status_unconditionally :
    (∀ (pool : List Tx) (txid : String) (bi g : Nat),
      pool.findIdx? (fun tx => tx.id = txid) = none →
        markTransactionConfirmed pool txid bi g = pool)
    ∧ (∀ (pool : List Tx) (txid : String) (bi g j : Nat) (tx : Tx),
        pool.findIdx? (fun tx => tx.id = txid) = some j → pool[j]? = some tx →
          markTransactionConfirmed pool txid bi g
            = pool.set j { tx with status := .confirmed, blockIndex := some bi, gasUsed := g })
    ∧ (∀ (pool : List Tx) (txid : String),
        pool.findIdx? (fun tx => tx.id = txid) = none →
          markTransactionFailed pool txid = pool)
    ∧ (∀ (pool : List Tx) (txid : String) (j : Nat) (tx : Tx),
        pool.findIdx? (fun tx => tx.id = txid) = some j → pool[j]? = some tx →
          markTransactionFailed pool txid = pool.set j { tx with status := .failed }) := by
  refine ⟨?_, ?_, ?_, ?_⟩
  · intro pool txid bi g h
    exact updateFirstBy_of_none _ _ _ (List.findIdx?_eq_none_iff.mp h)
  · intro pool txid bi g j tx h hx
    exact updateFirstBy_eq_set _ _ pool j tx h hx
  · intro pool txid h
    exact updateFirstBy_of_none _ _ _ (List.findIdx?_eq_none_iff.mp h)
  · intro pool txid j tx h hx
    exact updateFirstBy_eq_set _ _ pool j tx h hx

/-! ## C5: the `election_rules` validation -/

/-- C5 counterexample: a 2-candidate election lasting half a day has its
duration inside (0, 365] days, yet the deployed `election_rules` body rejects
it — the code's lower bound is 1 day, not 0. -/
theorem electionRules_rejects_half_day :
    halfDayElection.candidates = some ["A", "B"]
    ∧ 0 < electionDurationDays halfDayElection
    ∧ electionDurationDays halfDayElection ≤ 365
    ∧ (validateElectionRules halfDayElection).valid = false := by
  refine ⟨rfl, ?_, ?_, ?_⟩
  · norm_num [electionDurationDays, halfDayElection]
  · norm_num [electionDurationDays, halfDayElection]
  · norm_num [validateElectionRules, halfDayElection, electionDurationDays]

/-- C5 (amended): for an election whose candidate list is present, the
built-in `election_rules` validation passes exactly when there are at least
2 candidates and the duration in days lies in the closed interval [1, 365];
durations strictly between 0 and 1 day are rejected, and a duration of
exactly 1 day passes. -/
theorem electionRules_valid_iff (e : Election) (cs : List String)
    (h : e.candidates = some cs) :
    (validateElectionRules e).valid = true ↔
      (2 ≤ cs.length ∧ 1 ≤ electionDurationDays e ∧ electionDurationDays e ≤ 365) := by
  have hval : validateElectionRules e =
      (if cs.length < 2 then (⟨false, some "Insufficient candidates"⟩ : ValidationResult)
       else if 365 < electionDurationDays e ∨ electionDurationDays e < 1 then
         ⟨false, some "Invalid election duration"⟩
       else ⟨true, none⟩) := by
    rw [validateElectionRules, h]
  rw [hval]
  split_ifs with h1 h2
  · exact iff_of_false (by decide) (fun hc => absurd hc.1 (by omega))
  · refine iff_of_false (by decide) (fun hc => ?_)
    rcases h2 with h2 | h2 <;> linarith [hc.2.1, hc.2.2]
  · push_neg at h2
    exact iff_of_true rfl ⟨by omega, h2.2, h2.1⟩

theorem electionRules_valid_iff_witness :
    (validateElectionRules oneDayElection).valid = true ↔
      (2 ≤ (["A", "B"] : List String).length
        ∧ 1 ≤ electionDurationDays oneDayElection
        ∧ electionDurationDays oneDayElection ≤ 365) :=
  electionRules_valid_iff oneDayElection ["A", "B"] rfl

/-! ## C9: `averageGasUsed` of `getTransactionStats` -/

theorem gasFold_spec (pool : List Tx) :
    ∀ (m : List (String × Nat)) (s c : Nat),
      (pool.foldl
        (fun (acc : List (String × Nat) × Nat × Nat) tx =>
          let byType := bumpCount acc.1 tx.type
          if tx.status = .confirmed ∧ tx.gasUsed ≠ 0 then
            (byType, acc.2.1 + tx.gasUsed, acc.2.2 + 1)
          else
            (byType, acc.2.1, acc.2.2))
        (m, s, c)).2
      = (s + ((pool.filter (fun tx => tx.status = .confirmed ∧ tx.gasUsed ≠ 0)).map
            (fun tx => tx.gasUsed)).sum,
         c + (pool.filter (fun tx => tx.status = .confirmed ∧ tx.gasUsed ≠ 0)).length) := by
  induction pool with
  | nil => intro m s c; simp
  | cons tx rest ih =>
      intro m s c
      by_cases h : tx.status = .confirmed ∧ tx.gasUsed ≠ 0
      · simp only [List.foldl_cons, List.filter_cons, if_pos h, decide_eq_true_eq]
        rw [ih]
        simp [h]
        constructor <;> omega
      · simp only [List.foldl_cons, List.filter_cons, if_neg h]
        rw [ih]
        simp [h]

/-- C9 counterexample: a pool with two confirmed transactions, one of zero
gas and one of gas 10.  The claim's mean over all confirmed transactions is
(0+10)/2 = 5, but `getTransactionStats` reports 10: the zero-gas confirmed
transaction is dropped from the denominator by the source's truthiness
check. -/
theorem averageGasUsed_drops_zero_gas :
    (zeroGasPool.map (fun tx => tx.status) = [TxStatus.confirmed, TxStatus.confirmed])
    ∧ (getTransactionStats zeroGasPool).averageGasUsed = 10
    ∧ averageGasUsedOverConfirmed zeroGasPool = 5 := by
  refine ⟨rfl, ?_, ?_⟩
  · norm_num [getTransactionStats, zeroGasPool, bumpCount]
  · norm_num [averageGasUsedOverConfirmed, zeroGasPool, List.filter]

/-- C9 (amended): `averageGasUsed` is the mean of `gasUsed` over the
confirmed transactions **with nonzero gas**: their gas summed, divided by
their number, and 0 when no confirmed transaction has nonzero gas —
confirmed transactions with `gasUsed = 0` enter neither the numerator nor
the denominator. -/
theorem averageGasUsed_eq_nonzero_confirmed_mean (pool : List Tx) :
    (getTransactionStats pool).averageGasUsed = averageGasUsedOverNonzeroConfirmed pool := by
  have hfold := gasFold_spec pool [] 0 0
  simp only [getTransactionStats, averageGasUsedOverNonzeroConfirmed, hfold, zero_add]
  rcases Nat.eq_zero_or_pos
      (pool.filter (fun tx => tx.status = .confirmed ∧ tx.gasUsed ≠ 0)).length with hz | hp
  · rw [hz]
    norm_num
  · rw [if_pos hp, if_neg (by omega), Nat.cast_list_sum, List.map_map]
    rfl

/-! ## C10: admission does not verify signature correctness -/

/-- C10: `tamperedTx` was signed over its canonical fields and its payload
was altered afterwards, so `verifyTransactionSignature` rejects it; yet its
id, signature, sender and data are non-empty and its type is a recognized
tag, so `validateTransaction` accepts it and `submitTransaction` appends it
to a non-full pool without error. -/
theorem tampered_transaction_is_admitted :
    verifyTransactionSignature tamperedTx = false
    ∧ (validateTransaction tamperedTx).valid = true
    ∧ submitTransaction [] tamperedTx = .ok [tamperedTx]
    ∧ tamperedTx.id ≠ "" ∧ tamperedTx.signature ≠ "" ∧ tamperedTx.fromAddr ≠ ""
    ∧ tamperedTx.data ≠ "" ∧ validTypes.contains tamperedTx.type = true := by
  exact ⟨by decide, by decide, rfl, by decide, by decide, by decide, by decide, by decide⟩

/-! ## C6: `averageBlockTime` of `getRealtimeMetrics` -/

/-- C6 counterexample: `chain101` has 101 blocks.  Its first 100 blocks all
carry timestamp 0, so the reported average (computed by
`calculateBlockTimes`, which walks `i < min(length, 100)` from the start of
the chain) is 0; the mean over the **last** 100 blocks, as the claim states
it, is 100/99. -/
theorem averageBlockTime_uses_first_window :
    chain101.length = 101
    ∧ (getRealtimeMetrics chain101Store 0).averageBlockTime = 0
    ∧ averageBlockTimeOverLast100 chain101 = 100 / 99 := by
  refine ⟨by decide, ?_, ?_⟩
  · show averageBlockTime chain101 = 0
    norm_num [averageBlockTime, chain101, calculateBlockTimes, timedBlock, List.replicate]
  · norm_num [averageBlockTimeOverLast100, chain101, timedBlock, List.replicate]

theorem zipWith_self_shift_eq_map_range {α β : Type} (f : α → α → β) (d : α) :
    ∀ (l : List α) (a : α),
      List.zipWith f l (a :: l)
        = (List.range l.length).map
            (fun i => f ((a :: l).getD (i + 1) d) ((a :: l).getD i d)) := by
  intro l
  induction l with
  | nil => intro a; rfl
  | cons b t ih =>
      intro a
      simp only [List.zipWith_cons_cons, List.length_cons, List.range_succ_eq_map,
        List.map_cons, List.map_map, List.getD_cons_zero, List.getD_cons_succ,
        Function.comp_def]
      rw [ih b]
      simp only [List.getD_cons_succ]

/-- C6 (amended): the `averageBlockTime` reported by `getRealtimeMetrics`
equals the mean of the inter-block gaps over the **first** `min(length, 100)`
blocks of the chain (0 when that window has fewer than 2 blocks). -/
theorem averageBlockTime_eq_first100_mean (st : Store) (now : Int) :
    (getRealtimeMetrics st now).averageBlockTime = averageBlockTimeOverFirst100 st.chain := by
  show averageBlockTime st.chain = averageBlockTimeOverFirst100 st.chain
  simp only [averageBlockTime, averageBlockTimeOverFirst100, calculateBlockTimes]
  cases hw : st.chain.take 100 with
  | nil => simp
  | cons a t =>
      cases t with
      | nil => simp
      | cons b t' =>
          simp only [List.drop_one, List.tail_cons, List.length_cons]
          rw [zipWith_self_shift_eq_map_range
            (fun cur prev => cur.timestamp - prev.timestamp) default (b :: t') a]
          simp only [List.length_cons, List.length_map, List.length_range, List.map_map]
          rw [if_pos (by omega), if_neg (by omega)]
          have hlen : t'.length + 1 + 1 - 1 = t'.length + 1 := by omega
          rw [hlen]
          rfl

/-! ## C7: pending-transaction thresholds of `getBlockchainHealth` -/

set_option maxRecDepth 40000

theorem backlogNetworkStatus (n : Nat) :
    getNetworkStatus (pendingBacklogStore n).nodes =
      { totalNodes := 6, activeNodes := 6, validators := 3, networkHealth := .healthy } := by
  norm_num [getNetworkStatus, pendingBacklogStore, initialNodes, createNode]
  decide

/-- C7: on a store whose chain is the valid one-block genesis chain, whose
6 seeded nodes are all active, and whose pool holds 501 pending transactions,
`getBlockchainHealth` reports overall `'warning'` although the claim demands
`'critical'` above the 500 threshold; with 200 pending transactions it
reports `'healthy'` although the claim demands at least `'warning'` above
100.  The body never consults the 100-entry warning threshold, and its
`> 500` branch raises `overall` no higher than `'warning'`. -/
theorem pendingBacklog_never_escalates_overall :
    (getRealtimeMetrics (pendingBacklogStore 501) 0).pendingTransactions = 501
    ∧ (getBlockchainHealth (pendingBacklogStore 501) 0).overall = .warning
    ∧ (getRealtimeMetrics (pendingBacklogStore 200) 0).pendingTransactions = 200
    ∧ (getBlockchainHealth (pendingBacklogStore 200) 0).overall = .healthy
    ∧ pendingTransactionsWarning = 100 ∧ pendingTransactionsCritical = 500 := by
  refine ⟨by decide, ?_, by decide, ?_, rfl, rfl⟩
  · simp only [getBlockchainHealth, getRealtimeMetrics]
    rw [backlogNetworkStatus]
    decide
  · simp only [getBlockchainHealth, getRealtimeMetrics]
    rw [backlogNetworkStatus]
    decide

/-! ## C8: the 1000-entry pool ceiling -/

theorem submitTransaction_ok_of_valid (pool : List Tx) (tx : Tx)
    (hv : (validateTransaction tx).valid = true) (hlen : pool.length < MAX_POOL_SIZE) :
    submitTransaction pool tx = .ok (pool ++ [tx]) := by
  simp only [submitTransaction, hv]
  rw [if_neg (by simp), if_neg (by omega)]

theorem submitTransaction_full_of_valid (pool : List Tx) (tx : Tx)
    (hv : (validateTransaction tx).valid = true) (hlen : MAX_POOL_SIZE ≤ pool.length) :
    submitTransaction pool tx = .error "Transaction pool is full" := by
  simp only [submitTransaction, hv]
  rw [if_neg (by simp), if_pos hlen]

theorem submitAll_append (txs : List Tx) :
    ∀ pool : List Tx, (∀ tx ∈ txs, (validateTransaction tx).valid = true) →
      pool.length + txs.length ≤ MAX_POOL_SIZE →
      submitAll pool txs = .ok (pool ++ txs) := by
  induction txs with
  | nil => intro pool _ _; simp [submitAll]
  | cons tx rest ih =>
      intro pool hv hlen
      have hsub : submitTransaction pool tx = .ok (pool ++ [tx]) :=
        submitTransaction_ok_of_valid pool tx (hv tx (List.mem_cons_self tx rest))
          (by simp at hlen; omega)
      rw [submitAll, hsub]
      show submitAll (pool ++ [tx]) rest = _
      rw [ih (pool ++ [tx]) (fun t ht => hv t (List.mem_cons_of_mem tx ht))
        (by simp at hlen ⊢; omega)]
      simp

/-- C8: the pool capacity is a hard 1000-entry ceiling.
`submitTransaction` on a valid transaction fails with the capacity error
exactly when the pool already holds at least `MAX_POOL_SIZE = 1000` entries
and otherwise appends the transaction; every successful submission grows the
pool by one and stays within the ceiling; the marking operations preserve the
pool's length, and the two removal operations never grow it — so
`submitTransaction` is the only growing operation.  In particular 1000 valid
transactions submitted to an empty pool all succeed, and a 1001st valid
submission fails with the capacity error. -/
theorem pool_capacity_ceiling :
    (∀ (pool : List Tx) (tx : Tx), (validateTransaction tx).valid = true →
      MAX_POOL_SIZE ≤ pool.length →
        submitTransaction pool tx = .error "Transaction pool is full")
    ∧ (∀ (pool : List Tx) (tx : Tx), (validateTransaction tx).valid = true →
        pool.length < MAX_POOL_SIZE →
          submitTransaction pool tx = .ok (pool ++ [tx]))
    ∧ (∀ (pool : List Tx) (tx : Tx) (p' : List Tx), submitTransaction pool tx = .ok p' →
        pool.length < MAX_POOL_SIZE ∧ p'.length = pool.length + 1
          ∧ p'.length ≤ MAX_POOL_SIZE)
    ∧ (∀ (pool : List Tx) (txid : String) (bi g : Nat),
        (markTransactionConfirmed pool txid bi g).length = pool.length)
    ∧ (∀ (pool : List Tx) (txid : String),
        (markTransactionFailed pool txid).length = pool.length)
    ∧ (∀ (pool : List Tx) (txid : String),
        (removePendingTransaction pool txid).length ≤ pool.length)
    ∧ (∀ (pool : List Tx) (cutoff : Int),
        (clearConfirmedTransactions pool cutoff).length ≤ pool.length)
    ∧ (∀ txs : List Tx, (∀ tx ∈ txs, (validateTransaction tx).valid = true) →
        txs.length = MAX_POOL_SIZE →
          submitAll [] txs = .ok txs
          ∧ ∀ tx : Tx, (validateTransaction tx).valid = true →
              submitTransaction txs tx = .error "Transaction pool is full") := by
  refine ⟨submitTransaction_full_of_valid, submitTransaction_ok_of_valid, ?_, ?_, ?_, ?_, ?_, ?_⟩
  · intro pool tx p' hok
    by_cases hv : (validateTransaction tx).valid = true
    · by_cases hlen : pool.length < MAX_POOL_SIZE
      · rw [submitTransaction_ok_of_valid pool tx hv hlen] at hok
        cases hok
        refine ⟨hlen, by simp, by simp; omega⟩
      · rw [submitTransaction_full_of_valid pool tx hv (by omega)] at hok
        cases hok
    · simp only [submitTransaction] at hok
      rw [if_pos (by simp [Bool.not_eq_true] at hv; exact hv)] at hok
      cases hok
  · intro pool txid bi g
    exact updateFirstBy_length _ _ pool
  · intro pool txid
    exact updateFirstBy_length _ _ pool
  · intro pool txid
    exact List.length_filter_le _ pool
  · intro pool cutoff
    exact List.length_filter_le _ pool
  · intro txs hv hlen
    refine ⟨?_, ?_⟩
    · have := submitAll_append txs [] hv (by simp [hlen])
      simpa using this
    · intro tx hvtx
      exact submitTransaction_full_of_valid txs tx hvtx (by omega)

theorem pool_capacity_ceiling_witness :
    submitTransaction (List.replicate 1000 pendingVoteTx) pendingVoteTx
        = .error "Transaction pool is full"
    ∧ submitTransaction [] pendingVoteTx = .ok [pendingVoteTx] := by
  constructor
  · exact pool_capacity_ceiling.1 (List.replicate 1000 pendingVoteTx) pendingVoteTx
      (by decide) (by simp [MAX_POOL_SIZE])
  · simpa using pool_capacity_ceiling.2.1 [] pendingVoteTx (by decide)
      (by simp [MAX_POOL_SIZE])

/-! ## C2: a failing `addBlock` leaves the store untouched -/

/-- C2: `addBlock` validates the signed candidate block before any mutation.
Whenever the call fails — in particular whenever the built candidate violates
one of the linkage/hash/Merkle invariants checked by `validateBlock` — the
raised error is returned and the store (chain, node table, consensus state
and transaction pool alike) is exactly what it was before the call: no block
appended, no validator stats updated, no rotation performed, no transaction
marked confirmed. -/
theorem addBlock_error_leaves_store (st : Store) (txs : List Tx) (now : Int)
    (nonces : List Nat) :
    (∀ e, (addBlock st txs now nonces).1 = .error e → (addBlock st txs now nonces).2 = st)
    ∧ (∀ prev b e, st.chain.getLast? = some prev →
        candidateBlock st.consensus prev txs now nonces = some b →
        validateBlock b prev = .error e →
        addBlock st txs now nonces = (.error e, st)) := by
  unfold addBlock
  cases hl : st.chain.getLast? with
  | none =>
      refine ⟨fun e _ => rfl, fun prev b e hprev _ _ => ?_⟩
      cases hprev
  | some prev =>
      dsimp only
      cases hc : candidateBlock st.consensus prev txs now nonces with
      | none =>
          refine ⟨fun e _ => rfl, fun prev' b e hprev hcand _ => ?_⟩
          cases hprev
          rw [hc] at hcand
          cases hcand
      | some b0 =>
          dsimp only
          cases hv : validateBlock b0 prev with
          | error e0 =>
              refine ⟨fun e _ => rfl, fun prev' b e hprev hcand hval => ?_⟩
              cases hprev
              rw [hc] at hcand
              cases hcand
              rw [hv] at hval
              cases hval
              rfl
          | ok u =>
              cases u
              refine ⟨fun e he => ?_, fun prev' b e hprev hcand hval => ?_⟩
              · exact absurd he (by simp)
              · cases hprev
                rw [hc] at hcand
                cases hcand
                rw [hv] at hval
                cases hval

/-! ## C1: chains built by `addBlock` always re-validate -/

theorem mineBlockPoW_hash :
    ∀ (nonces : List Nat) (b0 : Block) (d : Nat) (n : Nat) (h : String),
      mineBlockPoW nonces b0 d = some (n, h) → h = calculateHash { b0 with nonce := n } := by
  intro nonces
  induction nonces with
  | nil => intro b0 d n h hm; cases hm
  | cons m rest ih =>
      intro b0 d n h hm
      have hm' :
          (if (calculateHash { b0 with nonce := m }).take d
                = String.mk (List.replicate d '0') then
              some (m, calculateHash { b0 with nonce := m })
            else mineBlockPoW rest b0 d) = some (n, h) := hm
      split at hm'
      · cases hm'
        rfl
      · exact ih b0 d n h hm'

/-- The block `addBlock` builds, hashes and signs always passes
`validateBlock` against the tip it was built from: its index, previous hash
and Merkle root are taken from the tip and the transaction list, and its
stored hash is the digest `validateBlock` recomputes (the digest reads
neither the `hash` nor the `signature` field). -/
theorem validateBlock_candidateBlock (c : ConsensusState) (prev : Block)
    (txs : List Tx) (now : Int) (nonces : List Nat) (b : Block)
    (h : candidateBlock c prev txs now nonces = some b) :
    validateBlock b prev = .ok () := by
  simp only [candidateBlock] at h
  cases hm : c.mechanism with
  | PoA =>
      rw [hm] at h
      dsimp only at h
      simp only [Option.map_some', Option.some.injEq] at h
      subst h
      unfold validateBlock
      rw [if_neg (fun hne => hne rfl), if_neg (fun hne => hne rfl),
        if_neg (fun hne => hne rfl), if_neg (fun hne => hne rfl)]
  | PoW =>
      rw [hm] at h
      dsimp only at h
      cases hmine : mineBlockPoW nonces
          { index := prev.index + 1, timestamp := now,
            data := .normal NETWORK_ID txs.length, previousHash := prev.hash,
            hash := "", nonce := 0, validator := c.currentValidator.getD "system",
            signature := "", transactions := txs,
            merkleRoot := calculateMerkleRoot txs,
            gasUsed := (txs.map (fun tx => tx.gasUsed)).sum,
            difficulty := c.difficulty } c.difficulty with
      | none =>
          rw [hmine] at h
          cases h
      | some p =>
          rw [hmine] at h
          obtain ⟨n, hs⟩ := p
          simp only [Option.map_some', Option.some.injEq] at h
          subst h
          have hhash := mineBlockPoW_hash nonces _ c.difficulty n hs hmine
          subst hhash
          unfold validateBlock
          rw [if_neg (fun hne => hne rfl), if_neg (fun hne => hne rfl),
            if_neg (fun hne => hne rfl), if_neg (fun hne => hne rfl)]

/-- The success branch of `addBlock`, spelled out: the candidate is appended,
the producing validator's stats updated, the authority rotated, and the
included transactions marked confirmed. -/
theorem addBlock_ok_shape (st : Store) (txs : List Tx) (now : Int)
    (nonces : List Nat) (prev b : Block)
    (hprev : st.chain.getLast? = some prev)
    (hcand : candidateBlock st.consensus prev txs now nonces = some b) :
    addBlock st txs now nonces =
      (.ok b,
        { chain := st.chain ++ [b]
          nodes := updateValidatorStats st.nodes b.validator now
          consensus := rotateValidatorC (updateValidatorStats st.nodes b.validator now)
            st.consensus
          pool := txs.foldl
            (fun p tx => markTransactionConfirmed p tx.id b.index tx.gasUsed) st.pool }) := by
  have hval := validateBlock_candidateBlock _ _ _ _ _ _ hcand
  unfold addBlock
  rw [hprev]
  dsimp only
  rw [hcand]
  dsimp only
  rw [hval]
  rfl

theorem addBlock_ok_inv (st : Store) (txs : List Tx) (now : Int) (nonces : List Nat)
    (b : Block) (hok : (addBlock st txs now nonces).1 = .ok b) :
    ∃ prev, st.chain.getLast? = some prev
      ∧ candidateBlock st.consensus prev txs now nonces = some b
      ∧ (addBlock st txs now nonces).2.chain = st.chain ++ [b] := by
  cases hl : st.chain.getLast? with
  | none =>
      unfold addBlock at hok
      rw [hl] at hok
      cases hok
  | some prev =>
      cases hc : candidateBlock st.consensus prev txs now nonces with
      | none =>
          unfold addBlock at hok
          rw [hl] at hok
          dsimp only at hok
          rw [hc] at hok
          cases hok
      | some b0 =>
          have hshape := addBlock_ok_shape st txs now nonces prev b0 hl hc
          have h1 : (addBlock st txs now nonces).1 = .ok b0 := by rw [hshape]
          rw [h1] at hok
          cases hok
          refine ⟨prev, rfl, hc, ?_⟩
          rw [hshape]

theorem isOk_matches_iff (e : Except String Unit) :
    (e matches .ok _) = true ↔ e = .ok () := by
  cases e with
  | error a => simp
  | ok u => cases u; simp

theorem validChainFrom_iff (l : List Block) :
    ∀ prev, validChainFrom prev l = true ↔ chainPairsOk (prev :: l) := by
  induction l with
  | nil =>
      intro prev
      constructor
      · intro _ i hi
        simp at hi
      · intro _
        rfl
  | cons b t ih =>
      intro prev
      simp only [validChainFrom, Bool.and_eq_true, isOk_matches_iff, ih b]
      constructor
      · rintro ⟨h1, h2⟩ i hi
        cases i with
        | zero => simpa [chainPairsOk] using h1
        | succ j =>
            have := h2 j (by simpa [chainPairsOk] using hi)
            simpa [chainPairsOk, List.getD_cons_succ] using this
      · intro hp
        refine ⟨?_, fun j hj => ?_⟩
        · simpa [chainPairsOk] using hp 0 (by simp)
        · have := hp (j + 1) (by simpa [chainPairsOk] using hj)
          simpa [chainPairsOk, List.getD_cons_succ] using this

theorem validateBlockchain_iff_pairs (c : List Block) :
    validateBlockchain c = true ↔ chainPairsOk c := by
  cases c with
  | nil =>
      constructor
      · intro _ i hi
        simp at hi
      · intro _
        rfl
  | cons b t => exact validChainFrom_iff t b

theorem validChainFrom_append (b : Block) :
    ∀ (l : List Block) (prev : Block),
      validChainFrom prev (l ++ [b])
        = (validChainFrom prev l && (validateBlock b (l.getLastD prev) matches .ok _)) := by
  intro l
  induction l with
  | nil =>
      intro prev
      simp [validChainFrom]
  | cons x t ih =>
      intro prev
      simp only [List.cons_append, validChainFrom, List.getLastD_cons, List.append_eq]
      rw [ih x, Bool.and_assoc]

theorem validateBlockchain_append (c : List Block) (b : Block) (hne : c ≠ [])
    (hv : validateBlockchain c = true)
    (hok : validateBlock b (c.getLastD default) = .ok ()) :
    validateBlockchain (c ++ [b]) = true := by
  cases c with
  | nil => exact absurd rfl hne
  | cons x t =>
      have hok' : validateBlock b (t.getLastD x) = .ok () := by
        rwa [List.getLastD_cons] at hok
      simp only [List.cons_append, validateBlockchain, validChainFrom_append,
        Bool.and_eq_true, isOk_matches_iff]
      exact ⟨hv, hok'⟩

/-- C1: every store reachable from a freshly initialized one by successful
`addBlock` calls has `validateBlockchain` return `true`; and
`validateBlockchain` returns `true` exactly when every adjacent pair of the
chain passes the re-derived index-linkage, previous-hash, recomputed-hash and
recomputed-Merkle-root checks of `validateBlock` (so it walks every adjacent
pair and returns `false` as soon as one pair violates a check). -/
theorem reachable_chain_validates :
    (∀ st, Reachable st → validateBlockchain st.chain = true)
    ∧ (∀ c : List Block, validateBlockchain c = true ↔ chainPairsOk c) := by
  refine ⟨?_, validateBlockchain_iff_pairs⟩
  intro st h
  induction h with
  | init now v1 v2 v3 p1 p2 p3 => rfl
  | @step st' txs now nonces hst hok ih =>
      obtain ⟨b, hb⟩ := hok
      obtain ⟨prev, hprev, hcand, hchain⟩ := addBlock_ok_inv _ _ _ _ _ hb
      rw [hchain]
      refine validateBlockchain_append _ _ ?_ ih ?_
      · intro hempty
        rw [hempty] at hprev
        cases hprev
      · have hval := validateBlock_candidateBlock _ _ _ _ _ _ hcand
        have hlast : st'.chain.getLastD default = prev := by
          rw [List.getLastD_eq_getLast?, hprev]
          rfl
        rw [hlast]
        exact hval

theorem reachable_chain_validates_witness :
    validateBlockchain (initialStore 0 "v1" "v2" "v3" "p1" "p2" "p3").chain = true :=
  reachable_chain_validates.1 _ (Reachable.init 0 "v1" "v2" "v3" "p1" "p2" "p3")

/-! ## C3: round-robin validator rotation -/

theorem findIdx?_id_eq_of_nodup (x : String) :
    ∀ (vs : List Node) (k i : Nat), k < vs.length →
      (vs.map (fun v => v.id)).Nodup →
      (vs.getD k default).id = x →
      vs.findIdx? (fun v => some v.id = some x) i = some (i + k) := by
  intro vs
  induction vs with
  | nil => intro k i hk; simp at hk
  | cons v t ih =>
      intro k i hk hnd hx
      rw [List.findIdx?_cons]
      cases k with
      | zero =>
          rw [List.getD_cons_zero] at hx
          rw [if_pos (by simp [hx])]
          simp
      | succ j =>
          rw [List.getD_cons_succ] at hx
          have hj : j < t.length := by simpa using hk
          have hgetD : t.getD j default = t[j] := by
            rw [List.getD_eq_getElem?_getD, List.getElem?_eq_getElem hj]
            rfl
          have hmem : x ∈ t.map (fun v => v.id) := by
            rw [← hx, hgetD]
            exact List.mem_map_of_mem _ (List.getElem_mem hj)
          rw [List.map_cons, List.nodup_cons] at hnd
          have hvx : ¬ v.id = x := fun hcontra => hnd.1 (hcontra ▸ hmem)
          rw [if_neg (by simp [hvx])]
          rw [ih j (i + 1) hj hnd.2 hx]
          congr 1
          omega

theorem activeIds_getElem? (vs : List Node) (j : Nat) (hj : j < vs.length) :
    (vs.map (fun v => v.id))[j]? = some ((vs.getD j default).id) := by
  rw [List.getElem?_map, List.getElem?_eq_getElem hj,
    List.getD_eq_getElem?_getD, List.getElem?_eq_getElem hj]
  rfl

theorem rotateValidatorC_mechanism (nodes : List Node) (c : ConsensusState) :
    (rotateValidatorC nodes c).mechanism = c.mechanism := by
  unfold rotateValidatorC
  dsimp only
  split <;> rfl

theorem rotateValidatorC_rotates (nodes : List Node) (c : ConsensusState)
    (ids : List String) (hids : activeValidatorIds nodes = ids)
    (hnd : ids.Nodup) (k : Nat) (hk : k < ids.length)
    (hcur : c.currentValidator = ids[k]?) :
    (rotateValidatorC nodes c).currentValidator = ids[(k + 1) % ids.length]? := by
  have hmap : (activeValidators nodes).map (fun v => v.id) = ids := hids
  have hlen : ids.length = (activeValidators nodes).length := by
    rw [← hmap, List.length_map]
  have hk' : k < (activeValidators nodes).length := by omega
  have hcur' : c.currentValidator = some (((activeValidators nodes).getD k default).id) := by
    rw [hcur, ← hmap, activeIds_getElem? _ k hk']
  unfold rotateValidatorC
  rw [if_neg (by omega)]
  have hfind : (activeValidators nodes).findIdx?
      (fun v => some v.id = c.currentValidator) = some k := by
    rw [hcur']
    have := findIdx?_id_eq_of_nodup (((activeValidators nodes).getD k default).id)
      (activeValidators nodes) k 0 hk' (hmap ▸ hnd) rfl
    simpa using this
  rw [hfind]
  dsimp only
  have hnext : (((k : Int) + 1) % ((activeValidators nodes).length : Int)).toNat
      = (k + 1) % (activeValidators nodes).length := by
    have h2 : (((k + 1) % (activeValidators nodes).length : Nat) : Int)
        = ((k : Int) + 1) % ((activeValidators nodes).length : Int) := by
      push_cast
      ring
    rw [← h2, Int.toNat_natCast]
  rw [hnext]
  have hjlt : (k + 1) % (activeValidators nodes).length < (activeValidators nodes).length :=
    Nat.mod_lt _ (by omega)
  rw [← hmap]
  simp only [List.length_map]
  rw [activeIds_getElem? _ _ hjlt]

theorem rotateValidatorC_fallback (nodes : List Node) (c : ConsensusState)
    (hne : activeValidators nodes ≠ [])
    (habs : ∀ v ∈ activeValidators nodes, ¬ some v.id = c.currentValidator) :
    (rotateValidatorC nodes c).currentValidator = (activeValidatorIds nodes)[0]? := by
  have hpos : 0 < (activeValidators nodes).length :=
    List.length_pos.mpr hne
  unfold rotateValidatorC
  rw [if_neg (by omega)]
  have hfind : (activeValidators nodes).findIdx?
      (fun v => some v.id = c.currentValidator) = none :=
    List.findIdx?_eq_none_iff.mpr (fun v hv => by simp [habs v hv])
  rw [hfind]
  dsimp only
  have hzero : (((-1 : Int) + 1) % ((activeValidators nodes).length : Int)).toNat = 0 := by
    norm_num
  rw [hzero]
  exact (activeIds_getElem? _ 0 hpos).symm

theorem activeValidatorIds_updateFirstBy (p : Node → Bool) (f : Node → Node)
    (hf : ∀ n, (f n).id = n.id ∧ (f n).type = n.type ∧ (f n).status = n.status) :
    ∀ nodes : List Node,
      activeValidatorIds (updateFirstBy p f nodes) = activeValidatorIds nodes := by
  intro nodes
  induction nodes with
  | nil => rfl
  | cons n t ih =>
      unfold updateFirstBy
      by_cases h : p n
      · rw [if_pos h]
        unfold activeValidatorIds activeValidators
        obtain ⟨h1, h2, h3⟩ := hf n
        simp only [List.filter_cons, h2, h3]
        by_cases hc : n.type = NodeType.validator ∧ n.status = NodeStatus.active
        · rw [if_pos (by simpa using hc), if_pos (by simpa using hc)]
          simp [h1]
        · rw [if_neg (by simpa using hc), if_neg (by simpa using hc)]
      · rw [if_neg h]
        unfold activeValidatorIds activeValidators at ih ⊢
        simp only [List.filter_cons]
        by_cases hc : n.type = NodeType.validator ∧ n.status = NodeStatus.active
        · rw [if_pos (by simpa using hc), if_pos (by simpa using hc)]
          simp only [List.map_cons]
          rw [ih]
        · rw [if_neg (by simpa using hc), if_neg (by simpa using hc)]
          exact ih

theorem activeValidatorIds_updateValidatorStats (nodes : List Node) (vid : String)
    (now : Int) :
    activeValidatorIds (updateValidatorStats nodes vid now) = activeValidatorIds nodes :=
  activeValidatorIds_updateFirstBy (fun n => n.id = vid)
    (fun n => { n with blocksValidated := n.blocksValidated + 1, lastSeen := now,
                       reputation := min 100 (n.reputation + 1) })
    (fun _ => ⟨rfl, rfl, rfl⟩) nodes

theorem candidateBlock_PoA_some (c : ConsensusState) (prev : Block) (txs : List Tx)
    (now : Int) (nonces : List Nat) (hm : c.mechanism = .PoA) :
    ∃ b, candidateBlock c prev txs now nonces = some b := by
  unfold candidateBlock
  rw [hm]
  exact ⟨_, rfl⟩

theorem iterAddBlock_rotation (st : Store) (txsf : Nat → List Tx) (nowf : Nat → Int)
    (noncesf : Nat → List Nat)
    (hm : st.consensus.mechanism = .PoA) (hne : st.chain ≠ [])
    (hnd : (activeValidatorIds st.nodes).Nodup)
    (hpos : activeValidatorIds st.nodes ≠ []) :
    ∀ (N k0 : Nat),
      st.consensus.currentValidator
          = (activeValidatorIds st.nodes)[k0 % (activeValidatorIds st.nodes).length]? →
      (iterAddBlock st txsf nowf noncesf N).consensus.mechanism = .PoA
      ∧ (iterAddBlock st txsf nowf noncesf N).chain ≠ []
      ∧ activeValidatorIds (iterAddBlock st txsf nowf noncesf N).nodes
          = activeValidatorIds st.nodes
      ∧ (iterAddBlock st txsf nowf noncesf N).consensus.currentValidator
          = (activeValidatorIds st.nodes)[(k0 + N) % (activeValidatorIds st.nodes).length]?
      ∧ (∀ k, k < N → ∃ b,
          (addBlock (iterAddBlock st txsf nowf noncesf k) (txsf k) (nowf k) (noncesf k)).1
            = .ok b) := by
  intro N
  induction N with
  | zero =>
      intro k0 hcur
      exact ⟨hm, hne, rfl, hcur, fun k hk => absurd hk (by omega)⟩
  | succ N ih =>
      intro k0 hcur
      obtain ⟨ihm, ihne, ihids, ihcur, ihok⟩ := ih k0 hcur
      set stN := iterAddBlock st txsf nowf noncesf N with hstN
      obtain ⟨prev, hprev⟩ : ∃ prev, stN.chain.getLast? = some prev := by
        cases hl : stN.chain.getLast? with
        | none => exact absurd (List.getLast?_eq_none_iff.mp hl) ihne
        | some prev => exact ⟨prev, rfl⟩
      obtain ⟨b, hcand⟩ := candidateBlock_PoA_some stN.consensus prev (txsf N) (nowf N)
        (noncesf N) ihm
      have hshape := addBlock_ok_shape stN (txsf N) (nowf N) (noncesf N) prev b hprev hcand
      have hiter : iterAddBlock st txsf nowf noncesf (N + 1)
          = (addBlock stN (txsf N) (nowf N) (noncesf N)).2 := rfl
      rw [hiter, hshape]
      have hupd := activeValidatorIds_updateValidatorStats stN.nodes b.validator (nowf N)
      have hM : 0 < (activeValidatorIds st.nodes).length :=
        List.length_pos.mpr hpos
      refine ⟨?_, ?_, ?_, ?_, ?_⟩
      · exact (rotateValidatorC_mechanism _ _).trans ihm
      · simp
      · rw [hupd] at *
        exact ihids
      · have hrot := rotateValidatorC_rotates
          (updateValidatorStats stN.nodes b.validator (nowf N)) stN.consensus
          (activeValidatorIds st.nodes) (hupd.trans ihids) hnd
          ((k0 + N) % (activeValidatorIds st.nodes).length)
          (Nat.mod_lt _ hM) ihcur
        rw [hrot, Nat.mod_add_mod]
        rfl
      · intro k hk
        rcases Nat.lt_succ_iff_lt_or_eq.mp hk with hk' | rfl
        · exact ihok k hk'
        · exact ⟨b, by rw [hshape]⟩

/-- C3: starting from a state whose authority is the first active validator,
`N` consecutive `addBlock` calls with a fixed set of `M` active validators
all succeed and leave the authority at `validators[N mod M]`; and whenever
the designated authority is absent from the current active-validator list at
rotation time, the next authority is the validator at index 0 of that
list. -/
theorem validator_rotation_round_robin :
    (∀ (st : Store) (txsf : Nat → List Tx) (nowf : Nat → Int)
        (noncesf : Nat → List Nat) (N : Nat),
      st.consensus.mechanism = .PoA → st.chain ≠ [] →
      (activeValidatorIds st.nodes).Nodup → activeValidatorIds st.nodes ≠ [] →
      st.consensus.currentValidator = (activeValidatorIds st.nodes)[0]? →
        (∀ k, k < N → ∃ b,
          (addBlock (iterAddBlock st txsf nowf noncesf k) (txsf k) (nowf k) (noncesf k)).1
            = .ok b)
        ∧ (iterAddBlock st txsf nowf noncesf N).consensus.currentValidator
            = (activeValidatorIds st.nodes)[N % (activeValidatorIds st.nodes).length]?)
    ∧ (∀ st : Store, activeValidators st.nodes ≠ [] →
        (∀ v ∈ activeValidators st.nodes, ¬ some v.id = st.consensus.currentValidator) →
        (rotateValidator st).consensus.currentValidator
          = (activeValidatorIds st.nodes)[0]?) := by
  constructor
  · intro st txsf nowf noncesf N hm hne hnd hpos hcur
    have hM : 0 < (activeValidatorIds st.nodes).length := List.length_pos.mpr hpos
    have hcur0 : st.consensus.currentValidator
        = (activeValidatorIds st.nodes)[0 % (activeValidatorIds st.nodes).length]? := by
      rw [Nat.zero_mod]
      exact hcur
    obtain ⟨_, _, _, hfinal, hok⟩ :=
      iterAddBlock_rotation st txsf nowf noncesf hm hne hnd hpos N 0 hcur0
    refine ⟨hok, ?_⟩
    rw [hfinal]
    simp
  · intro st hne habs
    exact rotateValidatorC_fallback st.nodes st.consensus hne habs

theorem validator_rotation_round_robin_witness :
    (∀ k, k < 4 → ∃ b,
      (addBlock
        (iterAddBlock (initialStore 0 "v1" "v2" "v3" "p1" "p2" "p3")
          (fun _ => []) (fun _ => 0) (fun _ => []) k) [] 0 []).1 = .ok b)
    ∧ (iterAddBlock (initialStore 0 "v1" "v2" "v3" "p1" "p2" "p3")
          (fun _ => []) (fun _ => 0) (fun _ => []) 4).consensus.currentValidator
        = (activeValidatorIds (initialStore 0 "v1" "v2" "v3" "p1" "p2" "p3").nodes)[4 %
            (activeValidatorIds (initialStore 0 "v1" "v2" "v3" "p1" "p2" "p3").nodes).length]? :=
  validator_rotation_round_robin.1 (initialStore 0 "v1" "v2" "v3" "p1" "p2" "p3")
    (fun _ => []) (fun _ => 0) (fun _ => []) 4 rfl (by decide) (by decide) (by decide) rfl

end VoteBlock
